import Mathlib

/-!
Verification of the vcfanno annotation module (`bcbio/variation/vcfanno.py`).

The Python module is shallowly embedded below.  Filesystem state is a list of
(path, contents) pairs; the sample record (`data` in the source) plays two
roles and is split accordingly: an arbitrarily nested tree (`VTree`) for the
recursive `_find_file` lookup, and flat accessor records (`HumanData`,
`AnnData`) for the fields read through the `datadict` accessors.  External
collaborators that are not part of this repository's single source file
(`utils.splitext_plus`, `utils.file_exists`, the `naming.GMAP` contig alias
map, `ref.file_contigs`, the compression/indexing step) are modelled from the
spec where noted.  String primitives (`os.path.basename`, `str.find`,
`str.split`, `str.strip`, ...) are given explicit executable models over
character lists so every definition evaluates inside the kernel.
-/

namespace Vcfanno

/-! ## String primitives -/

/-- Python whitespace stripped by `str.strip` (the ASCII portion). -/
def isPySpace (c : Char) : Bool :=
  c = ' ' || c = '\t' || c = '\n' || c = '\x0d' || c = '\x0b' || c = '\x0c'

/-- Model of Python's single-character `str.split(sep)`: the segments between
occurrences of `sep` (always at least one segment). -/
def splitOnCharAux (sep : Char) : List Char → List Char → List (List Char)
  | [], acc => [acc.reverse]
  | c :: rest, acc =>
    if c = sep then acc.reverse :: splitOnCharAux sep rest []
    else splitOnCharAux sep rest (c :: acc)

/-- Split a character list on a separator character. -/
def splitOnChar (sep : Char) (cs : List Char) : List (List Char) :=
  splitOnCharAux sep cs []

/-- Join segments with a separator character (inverse of `splitOnChar`). -/
def joinWithChar (sep : Char) : List (List Char) → List Char
  | [] => []
  | [x] => x
  | x :: y :: rest => x ++ sep :: joinWithChar sep (y :: rest)

/-- Model of `str.strip`: drop whitespace from both ends. -/
def pyStrip (cs : List Char) : List Char :=
  ((cs.dropWhile isPySpace).reverse.dropWhile isPySpace).reverse

/-- Model of `str.startswith`. -/
def strStartsWith (s pat : String) : Bool :=
  pat.data.isPrefixOf s.data

/-- Model of `str.endswith`. -/
def strEndsWith (s suf : String) : Bool :=
  suf.data.reverse.isPrefixOf s.data.reverse

/-- First index where `pat` occurs in a character list. -/
def findIdx : List Char → List Char → Option Nat
  | pat, [] => if pat.isEmpty then some 0 else none
  | pat, c :: rest =>
    if pat.isPrefixOf (c :: rest) then some 0
    else (findIdx pat rest).map (· + 1)

/-- Model of Python's `str.find`: index of the first occurrence of `pat` in
`s`, or -1 when `pat` does not occur. -/
def pyFind (s pat : String) : Int :=
  match findIdx pat.data s.data with
  | some n => (n : Int)
  | none => -1

/-- ASCII lowering of one character (model of `str.lower` per character). -/
def asciiLower (c : Char) : Char :=
  if 'A' ≤ c && c ≤ 'Z' then Char.ofNat (c.toNat + 32) else c

/-- Model of `str.lower`. -/
def pyLower (s : String) : String :=
  String.mk (s.data.map asciiLower)

/-! ## Path utilities -/

/-- Model of `os.path.basename`: the part of the path after the final slash. -/
def basename (s : String) : String :=
  String.mk ((splitOnChar '/' s.data).getLastD s.data)

/-- Model of `os.path.dirname`: the part of the path before the final slash
(empty when there is no slash). -/
def dirname (s : String) : String :=
  String.mk (joinWithChar '/' (splitOnChar '/' s.data).dropLast)

/-- Last index of a character in a character list, or -1 when absent. -/
def lastIndexOf (cs : List Char) (c : Char) : Int :=
  (cs.foldl (fun (st : Int × Int) x =>
      (st.1 + 1, if x = c then st.1 + 1 else st.2)) (-1, -1)).2

/-- Model of `os.path.splitext`: split at the last dot of the final path
component, ignoring leading dots of that component. -/
def pySplitext (s : String) : String × String :=
  let cs := s.data
  let slash := lastIndexOf cs '/'
  let dot := lastIndexOf cs '.'
  if dot > slash + 1 &&
      ((cs.drop (slash + 1).toNat).take (dot - slash - 1).toNat).any (· ≠ '.') then
    (String.mk (cs.take dot.toNat), String.mk (cs.drop dot.toNat))
  else
    (s, "")

/-- Modelled from the spec: `utils.splitext_plus` (the repository utility used
by the Runner, not part of this source file) splits a filename into stem and
extension while treating multi-part extensions such as `.vcf.gz` as a single
extension. -/
def splitext_plus (s : String) : String × String :=
  let be := pySplitext s
  if be.2 = ".gz" || be.2 = ".bz2" || be.2 = ".zip" then
    let be2 := pySplitext be.1
    (be2.1, be2.2 ++ be.2)
  else
    be

/-! ## The basename sort of `run` -/

/-- Strict byte-wise lexicographic order on character lists, mirroring
Python string `<`. -/
def charListLt : List Char → List Char → Bool
  | [], [] => false
  | [], _ :: _ => true
  | _ :: _, [] => false
  | a :: as, b :: bs => if a = b then charListLt as bs else decide (a < b)

/-- Strict comparison of two paths on their basenames, the sort key order of
`conf_fns.sort(key=os.path.basename)`. -/
def bnLt (a b : String) : Bool :=
  charListLt (basename a).data (basename b).data

/-- The corresponding non-strict key order. -/
def bnLe (a b : String) : Bool :=
  !(bnLt b a)

/-- Stable insertion of one element into a sorted list: the new element goes
before every element whose key is not strictly smaller. -/
def insertByBn (x : String) : List String → List String
  | [] => [x]
  | y :: ys => if bnLt y x then y :: insertByBn x ys else x :: y :: ys

/-- Model of `list.sort(key=os.path.basename)`: a stable sort on the basename
key (Python's Timsort is stable; stable insertion sort produces the same
list). -/
def sortByBasename : List String → List String
  | [] => []
  | x :: xs => insertByBn x (sortByBasename xs)

/-! ## File contents as lines -/

/-- Python file-line iteration on a character list: lines keep their trailing
newline; a final segment without a newline is still yielded. -/
def pyLinesAux : List Char → List Char → List (List Char)
  | [], acc => if acc.isEmpty then [] else [acc.reverse]
  | c :: rest, acc =>
    if c = '\n' then (c :: acc).reverse :: pyLinesAux rest []
    else pyLinesAux rest (c :: acc)

/-- Model of `for line in in_handle`: the lines of a file's contents, each
including its trailing newline when present. -/
def pyLines (s : String) : List String :=
  (pyLinesAux s.data []).map String.mk

/-- Concatenation of a list of strings (what repeated `out_handle.write`
builds up). -/
def strJoin : List String → String
  | [] => ""
  | s :: rest => s ++ strJoin rest

/-- Option-valued traversal of a list, failing at the first failure — the
behaviour of a Python loop in which an iteration may raise. -/
def optMapM {α β : Type} (f : α → Option β) : List α → Option (List β)
  | [] => some []
  | x :: xs => do
    let y ← f x
    let ys ← optMapM f xs
    pure (y :: ys)

/-! ## Filesystem model -/

/-- Filesystem state: the existing files with their contents.  `write`
prepends, so later writes shadow earlier ones. -/
structure FS where
  files : List (String × String)

/-- Contents of a file, when it exists. -/
def FS.lookup (fs : FS) (p : String) : Option String :=
  (fs.files.find? (fun e => decide (e.1 = p))).map (fun e => e.2)

/-- Write a file (used for the combined configs and the annotated output). -/
def FS.write (fs : FS) (p c : String) : FS :=
  ⟨(p, c) :: fs.files⟩

/-- Modelled from the spec: `utils.file_exists` / `os.path.exists` — whether
the path exists on disk (the spec's existence checks; directories and empty
files are not distinguished in this model). -/
def file_exists (fs : FS) (p : String) : Bool :=
  (fs.lookup p).isSome

/-! ## Resource Lookup: `_find_file` over the nested sample record -/

/-- The sample record viewed as the heterogeneous tree walked by
`_find_file`: mappings, sequences, string scalars, and any other scalar. -/
inductive VTree where
  | mapping : List (String × VTree) → VTree
  | seq : List VTree → VTree
  | scalar : String → VTree
  | other : VTree
deriving Repr

/-- The match test of `_find_file`'s scalar branch: an existing path that
ends with a path separator followed by the target basename. -/
def scalarMatches (fs : FS) (target s : String) : Bool :=
  file_exists fs s && strEndsWith s ("/" ++ target)

mutual

/-- Model of `_find_file`: depth-first search for the first matching string
scalar; dict values and sequence elements are visited in order. -/
def vtreeFind (fs : FS) (target : String) : VTree → Option String
  | .mapping kvs => vtreeFindPairs fs target kvs
  | .seq xs => vtreeFindList fs target xs
  | .scalar s => if scalarMatches fs target s then some s else none
  | .other => none

/-- Search of a mapping's values in order. -/
def vtreeFindPairs (fs : FS) (target : String) : List (String × VTree) → Option String
  | [] => none
  | kv :: kvs =>
    match vtreeFind fs target kv.2 with
    | some f => some f
    | none => vtreeFindPairs fs target kvs

/-- Search of a sequence's elements in order. -/
def vtreeFindList (fs : FS) (target : String) : List VTree → Option String
  | [] => none
  | x :: xs =>
    match vtreeFind fs target x with
    | some f => some f
    | none => vtreeFindList fs target xs

end

mutual

/-- All matching scalars of the tree in depth-first order (specification
device: `vtreeFind` returns the head of this list). -/
def vtreeMatches (fs : FS) (target : String) : VTree → List String
  | .mapping kvs => vtreeMatchesPairs fs target kvs
  | .seq xs => vtreeMatchesList fs target xs
  | .scalar s => if scalarMatches fs target s then [s] else []
  | .other => []

/-- All matches under a mapping's values. -/
def vtreeMatchesPairs (fs : FS) (target : String) : List (String × VTree) → List String
  | [] => []
  | kv :: kvs => vtreeMatches fs target kv.2 ++ vtreeMatchesPairs fs target kvs

/-- All matches under a sequence's elements. -/
def vtreeMatchesList (fs : FS) (target : String) : List VTree → List String
  | [] => []
  | x :: xs => vtreeMatches fs target x ++ vtreeMatchesList fs target xs

end

/-! ## Path Filler: `_fill_file_path` -/

/-- The basename extracted from a configuration line by `_fill_file_path`:
`os.path.basename` of the last `=`-segment with double quotes removed and
whitespace stripped. -/
def lineTarget (line : String) : String :=
  basename (String.mk (pyStrip
    (((splitOnChar '=' line.data).getLastD line.data).filter (fun c => c ≠ '"'))))

/-- The rewritten line produced by `_fill_file_path` on success. -/
def fileLineOf (p : String) : String :=
  "file=\"" ++ p ++ "\"\n"

/-- Model of `_fill_file_path`: look the extracted basename up in the sample
record; `none` models the `assert full_file` failure (fatal). -/
def fill_file_path (fs : FS) (tree : VTree) (line : String) : Option String :=
  match vtreeFind fs (lineTarget line) tree with
  | some f => some (fileLineOf f)
  | none => none

/-! ## Config Merger: `_combine_files` -/

/-- The per-line step of `_combine_files`'s writing loop: lines starting with
"file" are rewritten through `_fill_file_path` when `fill_paths` is set,
every other line is written as-is. -/
def processLine (fill_paths : Bool) (fs : FS) (tree : VTree) (line : String) : Option String :=
  if fill_paths && strStartsWith line "file" then fill_file_path fs tree line
  else some line

/-- What the loop over one input file writes: every line processed, in order;
`none` models the fatal lookup failure propagating out. -/
def processContent (fill_paths : Bool) (fs : FS) (tree : VTree) (c : String) : Option String :=
  (optMapM (processLine fill_paths fs tree) (pyLines c)).map strJoin

/-- The combined file's path: stem of the output base plus "-combine" plus
the first fragment's extension. -/
def combineOutPath (base_out_file first : String) : String :=
  (splitext_plus base_out_file).1 ++ "-combine" ++ (splitext_plus first).2

/-- Everything `_combine_files` writes: each existing fragment's processed
contents followed by the two newline characters of the `"\n\n"` write after
each fragment. -/
def combineContent (fill_paths : Bool) (fs : FS) (tree : VTree)
    (files : List String) : Option String :=
  (optMapM (fun f =>
      match fs.lookup f with
      | some c => (processContent fill_paths fs tree c).map (fun pc => pc ++ "\n\n")
      | none => none) files).map strJoin

/-- Model of `_combine_files`: outer `none` is the fatal lookup failure;
`some none` is the Python `None` result (no fragment exists, nothing
written); `some (some (path, contents))` is the written combined file. -/
def combine_files (fs : FS) (tree : VTree) (orig_files : List String)
    (base_out_file : String) (fill_paths : Bool) : Option (Option (String × String)) :=
  let ex := orig_files.filter (fun x => !x.data.isEmpty && file_exists fs x)
  match ex with
  | [] => some none
  | first :: _ =>
    (combineContent fill_paths fs tree ex).map
      (fun c => some (combineOutPath base_out_file first, c))

/-! ## Annotation Runner: `run` -/

/-- Modelled from the spec: the bytes the external engine pipeline leaves in
the output target (engine plus optional decompose filter plus compression);
opaque to this core, deterministic in its inputs. -/
def engineOutput (vcf conffn : String) (decomposed : Bool) : String :=
  "bgzip(vcfanno(" ++ conffn ++ "," ++ vcf ++ "," ++ (if decomposed then "1" else "0") ++ "))"

/-- Result of a `run` call.  `confFns`/`luaFns` are the final values of the
caller's argument lists (the in-place `list.sort` mutation); `result` is
`none` when the call raises (IndexError on an empty fragment list, the fatal
lookup assertion, or an engine failure) and otherwise carries the returned
path and whether the external engine was invoked; `fs` is the filesystem
afterwards. -/
structure RunOut where
  confFns : List String
  luaFns : List String
  result : Option (String × Bool)
  fs : FS

/-- The `-annotated-<profile>` idempotence tag derived from the first sorted
config fragment. -/
def annTag (c0 : String) : String :=
  "-annotated-" ++ (splitext_plus (basename c0)).1

/-- The output target derived by `run`: the input itself when its name
already carries the tag (at a strictly positive find index), otherwise the
input's stem plus the tag plus ".vcf.gz". -/
def outFileFor (vcf c0 : String) : String :=
  if pyFind vcf (annTag c0) > 0 then vcf
  else (splitext_plus vcf).1 ++ annTag c0 ++ ".vcf.gz"

/-- The body of `run` after the two in-place sorts; `conf` and `lua` are the
already-sorted lists.  The command construction, transactional temporary path
and the final `bgzip_and_index` call are external collaborators: the
transaction plus engine execution is modelled as writing the combined files
and then the output target, and the returned path is the output target.  A
`None` combined config makes the engine command fail, modelled as a raising
run. -/
def runCore (fs : FS) (vcf : String) (conf lua : List String) (tree : VTree)
    (basepath : Option String) (decomposed : Bool) : RunOut :=
  match conf with
  | [] => ⟨conf, lua, none, fs⟩
  | c0 :: rest =>
    let out_file := outFileFor vcf c0
    if file_exists fs out_file then ⟨c0 :: rest, lua, some (out_file, false), fs⟩
    else
      match combine_files fs tree (c0 :: rest) out_file basepath.isNone with
      | none => ⟨c0 :: rest, lua, none, fs⟩
      | some none => ⟨c0 :: rest, lua, none, fs⟩
      | some (some (conffn, confContent)) =>
        match combine_files fs tree lua out_file false with
        | none => ⟨c0 :: rest, lua, none, fs⟩
        | some luaRes =>
          let fs1 := fs.write conffn confContent
          let fs2 := match luaRes with
            | some (luafn, luaContent) => fs1.write luafn luaContent
            | none => fs1
          let fs3 := fs2.write out_file (engineOutput vcf conffn decomposed)
          ⟨c0 :: rest, lua, some (out_file, true), fs3⟩

/-- Model of `run`: sort both fragment lists by basename (the in-place
mutation of the caller's lists), then run the annotation body. -/
def run (fs : FS) (vcf : String) (conf_fns lua_fns : List String) (tree : VTree)
    (basepath : Option String) (decomposed : Bool) : RunOut :=
  runCore fs vcf (sortByBasename conf_fns) (sortByBasename lua_fns) tree basepath decomposed

/-! ## Build/Human Detector: `is_human` -/

/-- The fields of the sample record read by `is_human`.  `aliasHuman` is the
truthiness of `genome_resources.aliases.human`; `contigs` are the names
listed by the `ref.file_contigs` collaborator (modelled from the spec as part
of the record). -/
structure HumanData where
  aliasHuman : Bool
  genomeBuild : String
  contigs : List String
deriving Repr

/-- Model of the inner `has_build37_contigs`: some contig name starts with
"GL" or contains "_gl", and is an alias in the hg19/GRCh37 naming map.  The
map `naming.GMAP` is not part of this source file; its membership test is the
parameter `gmap37` (modelled from the spec's "recognized alias within the
hg19/GRCh37 naming map"). -/
def has_build37_contigs (gmap37 : String → Bool) (d : HumanData) : Bool :=
  d.contigs.any (fun c => (strStartsWith c "GL" || pyFind c "_gl" ≥ 0) && gmap37 c)

/-- Python falsiness of the `builds` argument: `None` or the empty list. -/
def noBuilds (builds : Option (List String)) : Bool :=
  match builds with
  | none => true
  | some bs => bs.isEmpty

/-- Membership test `b in builds` (false when `builds` is `None`). -/
def buildsMem (b : String) (builds : Option (List String)) : Bool :=
  match builds with
  | none => false
  | some bs => bs.any (fun x => decide (x = b))

/-- Model of `is_human`: metadata alias first (only without a build filter),
then the GRCh37/hg19 family by build name or contig fallback, then the hg38
family by build name. -/
def is_human (gmap37 : String → Bool) (d : HumanData)
    (builds : Option (List String)) : Bool :=
  if noBuilds builds && d.aliasHuman then true
  else if (noBuilds builds || buildsMem "37" builds)
      && ((d.genomeBuild = "hg19" || d.genomeBuild = "GRCh37")
          || has_build37_contigs gmap37 d) then true
  else if (noBuilds builds || buildsMem "38" builds) && d.genomeBuild = "hg38" then true
  else false

/-! ## Annotation Selector: `find_annotations` and the default profiles -/

/-- The sample-record fields read by `find_annotations` and the default
profile selection.  `vcfannoConf` is `dd.get_vcfanno` normalized to a list
(empty = unset); `variantcaller` and `paired` are the truthiness of
`dd.get_variantcaller` and `vcfutils.get_paired` (the latter modelled from
the spec's tumor/normal pairing status); `exacPath`/`cosmicPath` are the
installed variation resources. -/
structure AnnData where
  vcfannoConf : List String
  refFile : String
  variantcaller : Bool
  analysis : String
  exacPath : Option String
  cosmicPath : Option String
  paired : Bool
  human : HumanData

/-- Model of `annotate_gemini`: an exac resource is configured and present
on disk. -/
def annotate_gemini (fs : FS) (d : AnnData) : Bool :=
  match d.exacPath with
  | some p => file_exists fs p
  | none => false

/-- Model of `_annotate_somatic`: human sample, tumor/normal paired, cosmic
resource installed and present. -/
def annotate_somatic (gmap37 : String → Bool) (fs : FS) (d : AnnData) : Bool :=
  is_human gmap37 d.human none
    && (d.paired
        && (match d.cosmicPath with
            | some p => file_exists fs p
            | none => false))

/-- Model of `_default_conf_files`: gemini, somatic and rnaedit profiles in
that order, each under its condition, all only with a variant caller
configured. -/
def default_conf_files (gmap37 : String → Bool) (fs : FS) (d : AnnData) : List String :=
  if d.variantcaller then
    (if annotate_gemini fs d then ["gemini"] else [])
      ++ (if annotate_somatic gmap37 fs d then ["somatic"] else [])
      ++ (if pyFind (pyLower d.analysis) "rna-seq" ≥ 0 then ["rnaedit"] else [])
  else []

/-- The profile names `find_annotations` iterates over: the explicit
`vcfanno` configuration when set, else the defaults. -/
def selected_confs (gmap37 : String → Bool) (fs : FS) (d : AnnData) : List String :=
  if d.vcfannoConf.isEmpty then default_conf_files gmap37 fs d else d.vcfannoConf

/-- Modelled from the spec: the default annotation-profile directory at a
fixed relative position from the reference genome file (`../config/vcfanno`,
after `normpath`/`abspath` collapse the parent step). -/
def annodirOf (refFile : String) : String :=
  dirname (dirname refFile) ++ "/config/vcfanno"

/-- The configuration filename resolved for one profile entry: the entry
itself when it exists as a file, else `<annodir>/<entry>.conf`. -/
def profile_conffn (fs : FS) (adir conf_file : String) : String :=
  if file_exists fs conf_file then conf_file else adir ++ "/" ++ conf_file ++ ".conf"

/-- What the loop body of `find_annotations` appends for one profile entry:
nothing when the resolved configuration file is missing (the logged-warning
skip), else the configuration file and, when present, its companion lua
script. -/
def resolve_profile (fs : FS) (adir conf_file : String) : List String :=
  let conffn := profile_conffn fs adir conf_file
  if file_exists fs conffn then
    let luafn := (splitext_plus conffn).1 ++ ".lua"
    if file_exists fs luafn then [conffn, luafn] else [conffn]
  else []

/-- Model of `find_annotations`: resolve every selected profile in order,
skipping missing ones. -/
def find_annotations (gmap37 : String → Bool) (fs : FS) (d : AnnData) : List String :=
  (selected_confs gmap37 fs d).flatMap (resolve_profile fs (annodirOf d.refFile))

/-! ## Order lemmas for the basename sort -/

theorem charListLt_irrefl (cs : List Char) : charListLt cs cs = false := by
  induction cs with
  | nil => rfl
  | cons c rest ih => simp [charListLt, ih]

theorem charListLt_asymm :
    ∀ as bs : List Char, charListLt as bs = true → charListLt bs as = false
  | [], [], h => by simp [charListLt] at h
  | [], _ :: _, _ => rfl
  | _ :: _, [], h => by simp [charListLt] at h
  | a :: as, b :: bs, h => by
    by_cases hab : a = b
    · subst hab
      simp only [charListLt, if_pos rfl] at h ⊢
      exact charListLt_asymm as bs h
    · have hba : b ≠ a := fun e => hab e.symm
      simp only [charListLt, if_neg hab, decide_eq_true_eq] at h
      simp only [charListLt, if_neg hba, decide_eq_false_iff_not]
      exact fun hlt => absurd h (not_lt.2 hlt.le)

theorem charListLt_eq_of_not :
    ∀ as bs : List Char, charListLt as bs = false → charListLt bs as = false → as = bs
  | [], [], _, _ => rfl
  | [], _ :: _, h1, _ => by simp [charListLt] at h1
  | _ :: _, [], _, h2 => by simp [charListLt] at h2
  | a :: as, b :: bs, h1, h2 => by
    by_cases hab : a = b
    · subst hab
      simp only [charListLt, if_pos rfl] at h1 h2
      exact congrArg (a :: ·) (charListLt_eq_of_not as bs h1 h2)
    · have hba : b ≠ a := fun e => hab e.symm
      simp only [charListLt, if_neg hab, decide_eq_false_iff_not, not_lt] at h1
      simp only [charListLt, if_neg hba, decide_eq_false_iff_not, not_lt] at h2
      exact absurd (le_antisymm h2 h1) hab

theorem charListLt_trans :
    ∀ as bs cs : List Char, charListLt as bs = true → charListLt bs cs = true →
      charListLt as cs = true
  | [], [], _, h1, _ => by simp [charListLt] at h1
  | [], _ :: _, [], _, h2 => by simp [charListLt] at h2
  | [], _ :: _, _ :: _, _, _ => rfl
  | _ :: _, [], _, h1, _ => by simp [charListLt] at h1
  | _ :: _, _ :: _, [], _, h2 => by simp [charListLt] at h2
  | a :: as, b :: bs, c :: cs, h1, h2 => by
    by_cases hab : a = b
    · subst hab
      simp only [charListLt, if_pos rfl] at h1
      by_cases hac : a = c
      · subst hac
        simp only [charListLt, if_pos rfl] at h2 ⊢
        exact charListLt_trans as bs cs h1 h2
      · simp only [charListLt, if_neg hac] at h2 ⊢
        exact h2
    · simp only [charListLt, if_neg hab, decide_eq_true_eq] at h1
      by_cases hbc : b = c
      · subst hbc
        simp only [charListLt, if_neg hab, decide_eq_true_eq]
        exact h1
      · simp only [charListLt, if_neg hbc, decide_eq_true_eq] at h2
        have hlt := lt_trans h1 h2
        simp only [charListLt, if_neg (ne_of_lt hlt), decide_eq_true_eq]
        exact hlt

theorem strings_eq_of_data_eq {a b : String} (h : a.data = b.data) : a = b := by
  cases a
  cases b
  cases h
  rfl

theorem bnLe_of_bnLt {a b : String} (h : bnLt a b = true) : bnLe a b = true := by
  simp only [bnLe, Bool.not_eq_true']
  exact charListLt_asymm _ _ h

theorem bnLe_total (a b : String) : bnLe a b = true ∨ bnLe b a = true := by
  rcases hlt : bnLt b a with _ | _
  · exact Or.inl (by simp [bnLe, hlt])
  · exact Or.inr (bnLe_of_bnLt hlt)

theorem bnLe_trans {a b c : String} (h1 : bnLe a b = true) (h2 : bnLe b c = true) :
    bnLe a c = true := by
  simp only [bnLe, Bool.not_eq_true'] at h1 h2 ⊢
  unfold bnLt at h1 h2 ⊢
  rcases hca : charListLt (basename c).data (basename a).data with _ | _
  · rfl
  · exfalso
    rcases hab : charListLt (basename a).data (basename b).data with _ | _
    · have he := charListLt_eq_of_not _ _ hab h1
      rw [he] at hca
      rw [hca] at h2
      exact Bool.noConfusion h2
    · have ht := charListLt_trans _ _ _ hca hab
      rw [ht] at h2
      exact Bool.noConfusion h2

theorem basename_eq_of_bnLe_antisymm {a b : String}
    (h1 : bnLe a b = true) (h2 : bnLe b a = true) : basename a = basename b := by
  simp only [bnLe, Bool.not_eq_true'] at h1 h2
  exact strings_eq_of_data_eq (charListLt_eq_of_not _ _ h2 h1)

/-! ## The basename sort: permutation, sortedness, uniqueness -/

theorem insertByBn_perm (x : String) :
    ∀ l : List String, (insertByBn x l).Perm (x :: l)
  | [] => List.Perm.refl _
  | y :: ys => by
    simp only [insertByBn]
    split
    · exact ((insertByBn_perm x ys).cons y).trans (List.Perm.swap x y ys)
    · exact List.Perm.refl _

theorem sortByBasename_perm : ∀ l : List String, (sortByBasename l).Perm l
  | [] => List.Perm.refl _
  | x :: xs =>
    (insertByBn_perm x (sortByBasename xs)).trans ((sortByBasename_perm xs).cons x)

theorem mem_insertByBn {z x : String} {l : List String} :
    z ∈ insertByBn x l ↔ z = x ∨ z ∈ l := by
  rw [(insertByBn_perm x l).mem_iff, List.mem_cons]

theorem insertByBn_sorted (x : String) :
    ∀ l : List String, l.Pairwise (fun a b => bnLe a b = true) →
      (insertByBn x l).Pairwise (fun a b => bnLe a b = true)
  | [], _ => by simp [insertByBn]
  | y :: ys, h => by
    rcases List.pairwise_cons.1 h with ⟨hy, hys⟩
    simp only [insertByBn]
    split
    · refine List.pairwise_cons.2 ⟨?_, insertByBn_sorted x ys hys⟩
      intro z hz
      rcases mem_insertByBn.1 hz with rfl | hz
      · exact bnLe_of_bnLt (by assumption)
      · exact hy z hz
    · refine List.pairwise_cons.2 ⟨?_, h⟩
      intro z hz
      have hxy : bnLe x y = true := by
        simp only [bnLe, Bool.not_eq_true']
        simpa using ‹¬ bnLt y x = true›
      rcases List.mem_cons.1 hz with rfl | hz
      · exact hxy
      · exact bnLe_trans hxy (hy z hz)

theorem sortByBasename_sorted :
    ∀ l : List String, (sortByBasename l).Pairwise (fun a b => bnLe a b = true)
  | [] => List.Pairwise.nil
  | x :: xs => insertByBn_sorted x (sortByBasename xs) (sortByBasename_sorted xs)

/-- Two permutations of each other that are both basename-sorted are equal,
provided no two elements share a basename. -/
theorem eq_of_perm_of_bnSorted :
    ∀ l₁ l₂ : List String, l₁.Perm l₂ →
      l₁.Pairwise (fun a b => bnLe a b = true) →
      l₂.Pairwise (fun a b => bnLe a b = true) →
      (l₁.map basename).Nodup → l₁ = l₂
  | [], l₂, hp, _, _, _ => hp.nil_eq
  | a :: t₁, [], hp, _, _, _ => absurd hp.symm (by simp)
  | a :: t₁, b :: t₂, hp, hs₁, hs₂, hnd => by
    have hb1 : b ∈ a :: t₁ := hp.symm.subset (List.mem_cons_self b t₂)
    have ha2 : a ∈ b :: t₂ := hp.subset (List.mem_cons_self a t₁)
    have hab : bnLe a b = true := by
      rcases List.mem_cons.1 hb1 with rfl | hb
      · rcases bnLe_total b b with h | h <;> exact h
      · exact List.rel_of_pairwise_cons hs₁ hb
    have hba : bnLe b a = true := by
      rcases List.mem_cons.1 ha2 with rfl | ha
      · rcases bnLe_total a a with h | h <;> exact h
      · exact List.rel_of_pairwise_cons hs₂ ha
    have hbn : basename b = basename a :=
      (basename_eq_of_bnLe_antisymm hab hba).symm
    have hbeq : b = a :=
      List.inj_on_of_nodup_map hnd hb1 (List.mem_cons_self a t₁) hbn
    subst hbeq
    have ht : t₁.Perm t₂ := hp.cons_inv
    have := eq_of_perm_of_bnSorted t₁ t₂ ht hs₁.of_cons hs₂.of_cons
      (by simpa using hnd.of_cons)
    rw [this]

/-- Sorting by basename is invariant under permutation of the input when all
basenames are distinct. -/
theorem sortByBasename_eq_of_perm {l₁ l₂ : List String} (hp : l₁.Perm l₂)
    (hnd : (l₁.map basename).Nodup) :
    sortByBasename l₁ = sortByBasename l₂ :=
  eq_of_perm_of_bnSorted _ _
    ((sortByBasename_perm l₁).trans (hp.trans (sortByBasename_perm l₂).symm))
    (sortByBasename_sorted l₁) (sortByBasename_sorted l₂)
    (((sortByBasename_perm l₁).map basename).symm.nodup hnd)

/-! ## Content lemmas: line splitting and joining -/

theorem strJoin_map_mk : ∀ L : List (List Char), strJoin (L.map String.mk) = String.mk L.flatten
  | [] => rfl
  | x :: rest => by
    simp only [List.map_cons, strJoin, strJoin_map_mk rest, List.flatten_cons]
    rfl

theorem pyLinesAux_flatten : ∀ (cs acc : List Char),
    (pyLinesAux cs acc).flatten = acc.reverse ++ cs
  | [], acc => by
    simp only [pyLinesAux]
    split
    · simp_all [List.isEmpty_iff]
    · simp
  | c :: rest, acc => by
    simp only [pyLinesAux]
    split
    · rename_i hc
      subst hc
      simp [pyLinesAux_flatten rest []]
    · simp [pyLinesAux_flatten rest (c :: acc)]

theorem strJoin_pyLines (s : String) : strJoin (pyLines s) = s := by
  rw [pyLines, strJoin_map_mk, pyLinesAux_flatten]
  rfl

theorem optMapM_congr_some {α : Type} {f : α → Option α} :
    ∀ l : List α, (∀ x ∈ l, f x = some x) → optMapM f l = some l
  | [], _ => rfl
  | x :: xs, h => by
    simp only [optMapM, h x (List.mem_cons_self x xs),
      optMapM_congr_some xs (fun y hy => h y (List.mem_cons_of_mem x hy))]
    rfl

theorem processLine_no_fill (fs : FS) (tree : VTree) (line : String) :
    processLine false fs tree line = some line := by
  simp [processLine]

/-- Without path filling the merger copies a fragment's contents verbatim. -/
theorem processContent_no_fill (fs : FS) (tree : VTree) (c : String) :
    processContent false fs tree c = some c := by
  rw [processContent,
    optMapM_congr_some (pyLines c) (fun x _ => processLine_no_fill fs tree x)]
  simp [strJoin_pyLines]

theorem optMapM_lookup_no_fill (fs : FS) (tree : VTree) :
    ∀ files : List String, (∀ f ∈ files, (fs.lookup f).isSome = true) →
      optMapM (fun f =>
          match fs.lookup f with
          | some c => (processContent false fs tree c).map (fun pc => pc ++ "\n\n")
          | none => none) files
        = some (files.map (fun f => (fs.lookup f).getD "" ++ "\n\n"))
  | [], _ => rfl
  | f :: rest, h => by
    rcases Option.isSome_iff_exists.1 (h f (List.mem_cons_self f rest)) with ⟨c, hc⟩
    have ih := optMapM_lookup_no_fill fs tree rest
      (fun g hg => h g (List.mem_cons_of_mem f hg))
    simp only [optMapM, hc]
    rw [processContent_no_fill, ih]
    simp [hc]

theorem combineContent_no_fill (fs : FS) (tree : VTree) (files : List String)
    (h : ∀ f ∈ files, (fs.lookup f).isSome = true) :
    combineContent false fs tree files
      = some (strJoin (files.map (fun f => (fs.lookup f).getD "" ++ "\n\n"))) := by
  rw [combineContent, optMapM_lookup_no_fill fs tree files h]
  rfl

/-! ## Filesystem lemmas -/

theorem file_exists_write_self (fs : FS) (p c : String) :
    file_exists (fs.write p c) p = true := by
  simp [file_exists, FS.write, FS.lookup, List.find?]

/-! ## Resource Lookup lemmas: the search returns the first match -/

mutual

theorem vtreeFind_eq_head (fs : FS) (target : String) :
    ∀ v : VTree, vtreeFind fs target v = (vtreeMatches fs target v).head?
  | .mapping kvs => by
    rw [vtreeFind, vtreeMatches]
    exact vtreeFindPairs_eq_head fs target kvs
  | .seq xs => by
    rw [vtreeFind, vtreeMatches]
    exact vtreeFindList_eq_head fs target xs
  | .scalar s => by
    rw [vtreeFind, vtreeMatches]
    split <;> rfl
  | .other => rfl

theorem vtreeFindPairs_eq_head (fs : FS) (target : String) :
    ∀ kvs : List (String × VTree),
      vtreeFindPairs fs target kvs = (vtreeMatchesPairs fs target kvs).head?
  | [] => rfl
  | kv :: kvs => by
    rw [vtreeFindPairs, vtreeMatchesPairs,
      vtreeFind_eq_head fs target kv.2, vtreeFindPairs_eq_head fs target kvs]
    cases vtreeMatches fs target kv.2 <;> simp

theorem vtreeFindList_eq_head (fs : FS) (target : String) :
    ∀ xs : List VTree,
      vtreeFindList fs target xs = (vtreeMatchesList fs target xs).head?
  | [] => rfl
  | x :: xs => by
    rw [vtreeFindList, vtreeMatchesList,
      vtreeFind_eq_head fs target x, vtreeFindList_eq_head fs target xs]
    cases vtreeMatches fs target x <;> simp

end

/-! ## Runner lemmas -/

theorem runCore_args (fs : FS) (vcf : String) (conf lua : List String) (tree : VTree)
    (bp : Option String) (dec : Bool) :
    (runCore fs vcf conf lua tree bp dec).confFns = conf ∧
    (runCore fs vcf conf lua tree bp dec).luaFns = lua := by
  cases conf with
  | nil => exact ⟨rfl, rfl⟩
  | cons c0 rest =>
    simp only [runCore]
    split
    · exact ⟨rfl, rfl⟩
    · split
      · exact ⟨rfl, rfl⟩
      · exact ⟨rfl, rfl⟩
      · split
        · exact ⟨rfl, rfl⟩
        · split <;> exact ⟨rfl, rfl⟩

/-- A successful `runCore` call: the fragment list was non-empty, the
returned path is the derived output target, and afterwards that target
exists on disk. -/
theorem runCore_some {fs : FS} {vcf : String} {conf lua : List String} {tree : VTree}
    {bp : Option String} {dec : Bool} {out : String} {b : Bool}
    (h : (runCore fs vcf conf lua tree bp dec).result = some (out, b)) :
    ∃ c0 rest, conf = c0 :: rest ∧ out = outFileFor vcf c0 ∧
      file_exists (runCore fs vcf conf lua tree bp dec).fs out = true := by
  cases conf with
  | nil => simp [runCore] at h
  | cons c0 rest =>
    refine ⟨c0, rest, rfl, ?_⟩
    simp only [runCore] at h ⊢
    by_cases hex : file_exists fs (outFileFor vcf c0) = true
    · rw [if_pos hex] at h ⊢
      have h' : some (outFileFor vcf c0, false) = some (out, b) := h
      have h1 : outFileFor vcf c0 = out := congrArg Prod.fst (Option.some.inj h')
      subst h1
      exact ⟨rfl, hex⟩
    · rw [if_neg hex] at h ⊢
      rcases hcc : combine_files fs tree (c0 :: rest) (outFileFor vcf c0) bp.isNone
        with _ | _ | ⟨conffn, confContent⟩
      all_goals rw [hcc] at h
      · exact Option.noConfusion
          (show (none : Option (String × Bool)) = some (out, b) from h)
      · exact Option.noConfusion
          (show (none : Option (String × Bool)) = some (out, b) from h)
      · rcases hcl : combine_files fs tree lua (outFileFor vcf c0) false with _ | luaRes
        all_goals rw [hcl] at h
        · exact Option.noConfusion
            (show (none : Option (String × Bool)) = some (out, b) from h)
        · have h' : some (outFileFor vcf c0, true) = some (out, b) := h
          have h1 : outFileFor vcf c0 = out := congrArg Prod.fst (Option.some.inj h')
          subst h1
          exact ⟨rfl, file_exists_write_self _ _ _⟩

/-! ## Claim C1 -/

/-- C1: Idempotence of the Runner.  If a call to `run` succeeded (produced
the output artifact), a second call on the resulting filesystem with the same
input VCF and fragment sets returns the same output path without re-invoking
the external annotation engine: the derived target already exists, so the
merge/execute phase is skipped (the `false` flag) and the call goes straight
to compress-and-index. -/
theorem run_idempotent_second_call {fs : FS} {vcf : String} {conf_fns lua_fns : List String}
    {tree : VTree} {bp : Option String} {dec : Bool} {out : String} {b : Bool}
    (h : (run fs vcf conf_fns lua_fns tree bp dec).result = some (out, b)) :
    (run (run fs vcf conf_fns lua_fns tree bp dec).fs vcf conf_fns lua_fns tree bp dec).result
      = some (out, false) := by
  rw [run] at h
  rcases runCore_some h with ⟨c0, rest, hconf, hout, hex⟩
  subst hout
  simp only [run, hconf] at hex ⊢
  generalize hfs1 : (runCore fs vcf (c0 :: rest) (sortByBasename lua_fns) tree bp dec).fs
    = fs1 at hex ⊢
  simp only [runCore]
  rw [if_pos hex]

/-- Witness for C1 at a concrete input: one fragment, explicit base path; the
first run invokes the engine, the second only returns the existing target. -/
theorem run_idempotent_second_call_witness :
    (run (run ⟨[("confs/gemini.conf", "names=x\n")]⟩ "sample.vcf" ["confs/gemini.conf"] []
        VTree.other (some "/bp") false).fs
      "sample.vcf" ["confs/gemini.conf"] [] VTree.other (some "/bp") false).result
      = some ("sample-annotated-gemini.vcf.gz", false) :=
  run_idempotent_second_call
    (show (run ⟨[("confs/gemini.conf", "names=x\n")]⟩ "sample.vcf" ["confs/gemini.conf"] []
        VTree.other (some "/bp") false).result
      = some ("sample-annotated-gemini.vcf.gz", true) from rfl)

/-! ## Claim C2 -/

/-- C2 counterexample: with two distinct fragments sharing the basename
`x.conf`, the stable basename sort preserves the two different input orders,
so the combined output differs between the two permutations — the claimed
unconditional permutation invariance fails. -/
theorem combine_perm_invariance_counterexample :
    ([("a/x.conf" : String), "b/x.conf"].Perm ["b/x.conf", "a/x.conf"]) ∧
    combine_files ⟨[("a/x.conf", "A\n"), ("b/x.conf", "B\n")]⟩ VTree.other
        (sortByBasename ["a/x.conf", "b/x.conf"]) "out.vcf.gz" false
      ≠ combine_files ⟨[("a/x.conf", "A\n"), ("b/x.conf", "B\n")]⟩ VTree.other
        (sortByBasename ["b/x.conf", "a/x.conf"]) "out.vcf.gz" false := by
  constructor
  · decide
  · decide

/-- C2 (amended): the combined configuration produced from the basename-sorted
fragment list is invariant under permutation of the input order, provided the
fragments' basenames are pairwise distinct (with duplicate basenames the
stable sort preserves the input order of the duplicates). -/
theorem combine_perm_invariant {l₁ l₂ : List String} (fs : FS) (tree : VTree)
    (base : String) (fill : Bool) (hp : l₁.Perm l₂)
    (hnd : (l₁.map basename).Nodup) :
    combine_files fs tree (sortByBasename l₁) base fill
      = combine_files fs tree (sortByBasename l₂) base fill := by
  rw [sortByBasename_eq_of_perm hp hnd]

/-- Witness for C2 at a concrete input with distinct basenames. -/
theorem combine_perm_invariant_witness :
    combine_files ⟨[("z/a.conf", "A\n"), ("y/b.conf", "B\n")]⟩ VTree.other
        (sortByBasename ["z/a.conf", "y/b.conf"]) "out.vcf.gz" false
      = combine_files ⟨[("z/a.conf", "A\n"), ("y/b.conf", "B\n")]⟩ VTree.other
        (sortByBasename ["y/b.conf", "z/a.conf"]) "out.vcf.gz" false :=
  combine_perm_invariant _ _ _ _ (by decide) (by decide)

/-! ## Claim C3 -/

/-- C3: over a sample-record tree with exactly one matching scalar (an
existing path whose basename equals the target at a path-separator boundary)
the lookup returns that path and the path filler rewrites the line to it;
with zero matches the lookup returns nothing and the path filler fails
fatally (the `assert` failure, modelled as `none`) rather than returning a
value. -/
theorem find_file_unique_and_missing (fs : FS) (tree : VTree) (line : String) :
    (∀ p, vtreeMatches fs (lineTarget line) tree = [p] →
        vtreeFind fs (lineTarget line) tree = some p ∧
        fill_file_path fs tree line = some (fileLineOf p)) ∧
    (vtreeMatches fs (lineTarget line) tree = [] →
        vtreeFind fs (lineTarget line) tree = none ∧
        fill_file_path fs tree line = none) := by
  constructor
  · intro p hm
    have hf : vtreeFind fs (lineTarget line) tree = some p := by
      rw [vtreeFind_eq_head, hm]
      rfl
    exact ⟨hf, by rw [fill_file_path, hf]⟩
  · intro hm
    have hf : vtreeFind fs (lineTarget line) tree = none := by
      rw [vtreeFind_eq_head, hm]
      rfl
    exact ⟨hf, by rw [fill_file_path, hf]⟩

/-- Witness for C3: a tree with exactly one match resolves to it; a target
with no match makes the filler fail. -/
theorem find_file_unique_and_missing_witness :
    (fill_file_path ⟨[("/ref/a.vcf", "")]⟩ (VTree.mapping [("k", VTree.scalar "/ref/a.vcf")])
        "file=\"a.vcf\"\n" = some (fileLineOf "/ref/a.vcf")) ∧
    (fill_file_path ⟨[("/ref/a.vcf", "")]⟩ (VTree.mapping [("k", VTree.scalar "/ref/a.vcf")])
        "file=\"b.vcf\"\n" = none) :=
  ⟨((find_file_unique_and_missing ⟨[("/ref/a.vcf", "")]⟩
      (VTree.mapping [("k", VTree.scalar "/ref/a.vcf")]) "file=\"a.vcf\"\n").1
      "/ref/a.vcf" (by decide)).2,
   ((find_file_unique_and_missing ⟨[("/ref/a.vcf", "")]⟩
      (VTree.mapping [("k", VTree.scalar "/ref/a.vcf")]) "file=\"b.vcf\"\n").2
      (by decide)).2⟩

/-! ## Claim C4 -/

/-- Modelled from the spec's words (refinement target for C4): a line
"represents a `file=` assignment" when it starts with the key `file=`
(quoted or unquoted value). -/
def specFileAssignment (line : String) : Bool :=
  strStartsWith line "file="

/-- C4 counterexample: the line `filetype="a.vcf"` is not a `file=`
assignment, yet the merging step rewrites it (the code tests only the prefix
"file"), so the claim that only `file=` assignment lines are rewritten is
false. -/
theorem non_file_line_rewritten_counterexample :
    specFileAssignment "filetype=\"a.vcf\"\n" = false ∧
    processLine true ⟨[("/ref/a.vcf", "")]⟩ (VTree.mapping [("k", VTree.scalar "/ref/a.vcf")])
        "filetype=\"a.vcf\"\n"
      = some "file=\"/ref/a.vcf\"\n" ∧
    ("file=\"/ref/a.vcf\"\n" : String) ≠ "filetype=\"a.vcf\"\n" := by
  refine ⟨rfl, rfl, by decide⟩

/-- C4 (amended): during merging, every line that does not start with the
four characters "file" is written unchanged to the combined output (and with
path filling off every line is unchanged); lines starting with "file" — not
only exact `file=` assignments — are passed through the path filler. -/
theorem non_file_lines_unchanged (fs : FS) (tree : VTree) (fill : Bool) (line : String)
    (h : strStartsWith line "file" = false ∨ fill = false) :
    processLine fill fs tree line = some line := by
  rcases h with h | h <;> simp [processLine, h]

/-- Witness for C4 (amended) at a concrete non-"file" line. -/
theorem non_file_lines_unchanged_witness :
    processLine true ⟨[]⟩ VTree.other "fields=[\"AF\"]\n" = some "fields=[\"AF\"]\n" :=
  non_file_lines_unchanged _ _ _ _ (Or.inl (by decide))

/-! ## Claim C5 -/

/-- C5: when no fragment in the input list survives the existence filter —
in particular for the empty list and for lists of only nonexistent (or
falsy) paths — the merger returns the absent result and produces no combined
file at all. -/
theorem combine_no_existing_absent (fs : FS) (tree : VTree) (base : String) (fill : Bool)
    (files : List String)
    (h : ∀ f ∈ files, f.data.isEmpty = true ∨ file_exists fs f = false) :
    combine_files fs tree files base fill = some none := by
  rw [combine_files]
  have hfil : files.filter (fun x => !x.data.isEmpty && file_exists fs x) = [] := by
    rw [List.filter_eq_nil_iff]
    intro a ha
    rcases h a ha with h1 | h1 <;> simp [h1]
  rw [hfil]

/-- Witness for C5: the empty fragment list and a nonexistent-path list both
give the absent result. -/
theorem combine_no_existing_absent_witness :
    combine_files ⟨[]⟩ VTree.other [] "out.vcf.gz" true = some none ∧
    combine_files ⟨[]⟩ VTree.other ["gemini.conf"] "out.vcf.gz" true = some none := by
  exact ⟨combine_no_existing_absent _ _ _ _ _ (by simp),
    combine_no_existing_absent _ _ _ _ _ (by decide)⟩

/-! ## Claim C6 -/

/-- C6 counterexample: the claim fails on two inputs.  A record whose
metadata aliases the organism as human returns true for build "mm10" under
the default filter (the claim says false, conditioning only on contigs); and
a record with build "hg38" whose contig list matches a build-37 alias returns
true under the filter ["37"] that does not contain "38" (the claim says
true only when the filter is absent or contains "38"). -/
theorem is_human_claim_counterexample :
    (is_human (fun _ => false) ⟨true, "mm10", []⟩ none = true) ∧
    (buildsMem "38" (some ["37"]) = false ∧ noBuilds (some ["37"]) = false ∧
      is_human (fun s => decide (s = "GL000191.1")) ⟨false, "hg38", ["GL000191.1"]⟩
        (some ["37"]) = true) := by
  refine ⟨rfl, rfl, rfl, ?_⟩
  decide

/-- C6 (amended): provided the record's contigs match no hg19/GRCh37
alternate-scaffold alias, `is_human` returns true for build "GRCh37" under
the default filter; returns false for build "mm10" under the default filter
when additionally the metadata does not alias the organism as human; and for
build "hg38" returns true exactly when the build filter is absent (or empty,
which Python treats as absent) or contains "38". -/
theorem is_human_builds (gmap37 : String → Bool) (d : HumanData)
    (hc : has_build37_contigs gmap37 d = false) :
    (d.genomeBuild = "GRCh37" → is_human gmap37 d none = true) ∧
    (d.genomeBuild = "mm10" → d.aliasHuman = false → is_human gmap37 d none = false) ∧
    (d.genomeBuild = "hg38" → ∀ builds,
        is_human gmap37 d builds = (noBuilds builds || buildsMem "38" builds)) := by
  refine ⟨?_, ?_, ?_⟩
  · intro hb
    rw [is_human, hb, hc]
    cases ha : d.aliasHuman <;> simp [noBuilds]
  · intro hb ha
    rw [is_human, hb, ha, hc]
    decide
  · intro hb builds
    rw [is_human, hb, hc]
    cases hnb : noBuilds builds <;> cases ha : d.aliasHuman <;>
      cases hm37 : buildsMem "37" builds <;> cases hm38 : buildsMem "38" builds <;>
      simp [hnb, ha, hm37, hm38]

/-- Witness for C6 (amended) at concrete records with no matching contigs. -/
theorem is_human_builds_witness :
    (is_human (fun _ => false) ⟨false, "GRCh37", []⟩ none = true) ∧
    (is_human (fun _ => false) ⟨false, "mm10", []⟩ none = false) ∧
    (is_human (fun _ => false) ⟨false, "hg38", []⟩ (some ["38"]) = true) :=
  ⟨(is_human_builds (fun _ => false) ⟨false, "GRCh37", []⟩ rfl).1 rfl,
   (is_human_builds (fun _ => false) ⟨false, "mm10", []⟩ rfl).2.1 rfl rfl,
   ((is_human_builds (fun _ => false) ⟨false, "hg38", []⟩ rfl).2.2 rfl
      (some ["38"])).trans (by decide)⟩

/-! ## Claim C7 -/

/-- C7: a selected profile whose resolved configuration file does not exist
on disk is non-fatal for `find_annotations`: the profile contributes nothing
to the returned list (skip after the logged warning), the remaining profiles
before and after it are still resolved exactly as if the missing profile had
not been selected, and the function is total (it never aborts). -/
theorem find_annotations_skips_missing (gmap37 : String → Bool) (fs : FS) (d : AnnData)
    (cs₁ cs₂ : List String) (c : String)
    (hsel : selected_confs gmap37 fs d = cs₁ ++ c :: cs₂)
    (hmiss : file_exists fs (profile_conffn fs (annodirOf d.refFile) c) = false) :
    find_annotations gmap37 fs d
      = (cs₁ ++ cs₂).flatMap (resolve_profile fs (annodirOf d.refFile)) := by
  rw [find_annotations, hsel, List.flatMap_append, List.flatMap_append, List.flatMap_cons]
  have hres : resolve_profile fs (annodirOf d.refFile) c = [] := by
    rw [resolve_profile]
    simp [hmiss]
  rw [hres]
  simp

/-- Witness for C7: an explicit profile list with one resolvable and one
missing profile resolves to the single existing profile's files. -/
theorem find_annotations_skips_missing_witness :
    find_annotations (fun _ => false) ⟨[("/g/config/vcfanno/gemini.conf", "x\n")]⟩
        ⟨["gemini", "missing"], "/g/seq/hg38.fa", false, "", none, none, false,
          ⟨false, "hg38", []⟩⟩
      = (["gemini"] ++ []).flatMap
          (resolve_profile ⟨[("/g/config/vcfanno/gemini.conf", "x\n")]⟩
            (annodirOf "/g/seq/hg38.fa")) :=
  find_annotations_skips_missing (fun _ => false) _ _ ["gemini"] [] "missing"
    (by decide) (by decide)

/-! ## Claim C8 -/

/-- Modelled from the spec's words (refinement target for C8): fragment
contents concatenated in order, each fragment's content separated from the
next by a single blank line, with nothing appended after the last
fragment. -/
def specCombinedContent (contents : List String) : String :=
  String.intercalate "\n" contents

/-- C8 counterexample: combining two one-line fragments yields the fragment
contents each followed by two newline characters — including after the last
fragment — so blank lines do not appear only between fragments, and the
result differs from the spec's single-blank-line interleaving. -/
theorem combine_blank_lines_counterexample :
    combine_files ⟨[("a.conf", "A\n"), ("b.conf", "B\n")]⟩ VTree.other ["a.conf", "b.conf"]
        "out.vcf.gz" false
      = some (some ("out-combine.conf", "A\n\n\nB\n\n\n")) ∧
    ("A\n\n\nB\n\n\n" : String) ≠ specCombinedContent ["A\n", "B\n"] := by
  refine ⟨rfl, by decide⟩

/-- C8 (amended): for a non-empty list of existing fragments the combined
file consists of the fragment contents in the given order, each fragment's
content — including the last — followed by the two newline characters of the
per-fragment separator write (for newline-terminated fragments this places
two blank lines after each fragment). -/
theorem combine_blank_separator (fs : FS) (tree : VTree) (base f0 : String)
    (rest : List String)
    (hall : ∀ f ∈ f0 :: rest, f.data.isEmpty = false ∧ file_exists fs f = true) :
    combine_files fs tree (f0 :: rest) base false
      = some (some (combineOutPath base f0,
          strJoin ((f0 :: rest).map (fun f => (fs.lookup f).getD "" ++ "\n\n")))) := by
  rw [combine_files]
  have hfil : (f0 :: rest).filter (fun x => !x.data.isEmpty && file_exists fs x)
      = f0 :: rest := by
    rw [List.filter_eq_self]
    intro a ha
    rcases hall a ha with ⟨h1, h2⟩
    simp [h1, h2]
  rw [hfil, combineContent_no_fill fs tree _
    (fun f hf => (hall f hf).2)]
  rfl

/-- Witness for C8 (amended) at two concrete one-line fragments. -/
theorem combine_blank_separator_witness :
    combine_files ⟨[("a.conf", "A\n"), ("b.conf", "B\n")]⟩ VTree.other ["a.conf", "b.conf"]
        "out.vcf.gz" false
      = some (some (combineOutPath "out.vcf.gz" "a.conf",
          strJoin ((["a.conf", "b.conf"] : List String).map (fun f =>
            ((⟨[("a.conf", "A\n"), ("b.conf", "B\n")]⟩ : FS).lookup f).getD "" ++ "\n\n")))) :=
  combine_blank_separator _ _ _ _ _ (by decide)

/-! ## Claim C9 -/

/-- C9: with an empty config-fragment list, `run` fails (the IndexError from
indexing the first sorted fragment) before producing or touching any output:
the result is the raising outcome and the filesystem is unchanged.  A
non-empty `conf_fns` is therefore a precondition of the Runner. -/
theorem run_empty_conf_fails (fs : FS) (vcf : String) (lua_fns : List String)
    (tree : VTree) (bp : Option String) (dec : Bool) :
    (run fs vcf [] lua_fns tree bp dec).result = none ∧
    (run fs vcf [] lua_fns tree bp dec).fs = fs :=
  ⟨rfl, rfl⟩

/-! ## Claim C10 -/

/-- C10: `run` sorts the caller's `conf_fns` and `lua_fns` lists in place by
basename as its first step; the caller-visible final value of each argument
list is its basename-sorted permutation on every path through the function —
including the idempotent short-circuit path and the raising paths. -/
theorem run_sorts_caller_lists (fs : FS) (vcf : String) (conf_fns lua_fns : List String)
    (tree : VTree) (bp : Option String) (dec : Bool) :
    (run fs vcf conf_fns lua_fns tree bp dec).confFns = sortByBasename conf_fns ∧
    (run fs vcf conf_fns lua_fns tree bp dec).luaFns = sortByBasename lua_fns := by
  rw [run]
  exact runCore_args fs vcf (sortByBasename conf_fns) (sortByBasename lua_fns) tree bp dec

end Vcfanno
